import Mathlib

/- Verification development for the Go-file simplification scripts
   aggressive_simplify.py and simplify_files.py.

   A document is modelled as a list of characters; a line as a list of
   characters containing no newline.  Each Lean definition below embeds the
   corresponding piece of Python code, named after the spec concept it
   realises (Noise Filter, Block Scanner, blank-run collapse, decorative
   Unicode cleanup, top-level rewrite, section-skip filter). -/

abbrev Line := List Char

/-- ASCII whitespace as stripped by Python str.strip (documents here contain
no exotic Unicode whitespace, so the ASCII set is faithful). -/
def isPySpace (c : Char) : Bool :=
  c = ' ' || c = '\t' || c = '\n' || c = '\r' || c = '\x0b' || c = '\x0c'

/-- Python str.strip: remove leading and trailing whitespace. -/
def pyStrip (l : Line) : Line :=
  ((l.dropWhile isPySpace).reverse.dropWhile isPySpace).reverse

/-- Index of the first occurrence of pat as a contiguous substring
(Python re.search / str.find on a literal pattern). -/
def findSub (pat : List Char) : List Char → Option Nat
  | [] => if pat.isPrefixOf ([] : List Char) then some 0 else none
  | c :: t =>
    if pat.isPrefixOf (c :: t) then some 0
    else (findSub pat t).map (fun n => n + 1)

/-- Python substring containment test (pat in l). -/
def isSub (pat l : List Char) : Bool := (findSub pat l).isSome

/-- pat occurs somewhere in s as a contiguous substring. -/
def occursIn (pat s : List Char) : Prop := ∃ a b, s = a ++ pat ++ b

/- ===== aggressive_simplify.py, step 1: package rewrite =====
   re.sub of the line-anchored literal "package main" with
   "package intermediate", MULTILINE, over the whole document. -/

/-- One left-to-right scan of re.sub(r'^package main', 'package intermediate',
content, flags=re.MULTILINE).  The Bool argument records whether the current
position is at the start of a line. -/
def pkgAux : Bool → List Char → List Char
  | b, 'p' :: 'a' :: 'c' :: 'k' :: 'a' :: 'g' :: 'e' :: ' ' :: 'm' :: 'a' :: 'i' :: 'n' :: rest =>
      if b then "package intermediate".toList ++ pkgAux false rest
      else 'p' :: pkgAux false ('a' :: 'c' :: 'k' :: 'a' :: 'g' :: 'e' :: ' ' :: 'm' :: 'a' :: 'i' :: 'n' :: rest)
  | _, [] => []
  | _, c :: rest => c :: pkgAux (c == '\n') rest

/-- Step 1 of aggressive_simplify (lines 16-17). -/
def packageRewrite (s : List Char) : List Char := pkgAux true s

/- ===== aggressive_simplify.py, step 2: line-oriented Noise Filter ===== -/

/-- line.strip().startswith('/*')  (aggressive_simplify.py line 28). -/
def beginsComment (l : Line) : Bool := "/*".toList.isPrefixOf (pyStrip l)

/-- '*/' in line  (aggressive_simplify.py line 34). -/
def containsClose (l : Line) : Bool := isSub "*/".toList l

/-- The character class of re.match(r'^[/=\s_-]{30,}', line)
(aggressive_simplify.py line 46); Python \s restricted to ASCII whitespace. -/
def isSepChar (c : Char) : Bool :=
  c = '/' || c = '=' || isPySpace c || c = '_' || c = '-'

/-- re.match(r'^[/=\s_-]{30,}', line): at least 30 leading separator-class
characters (the pattern is anchored at the start only, not at the end). -/
def isDecorative (l : Line) : Bool := 30 ≤ (l.takeWhile isSepChar).length

/-- 'Example' in line and 'func ' not in line
(aggressive_simplify.py line 51). -/
def isExampleSkip (l : Line) : Bool :=
  isSub "Example".toList l && !(isSub "func ".toList l)

/-- The while-loop of aggressive_simplify.py lines 24-56.  The state none
means normal scanning; some acc means we are inside a block comment whose
lines collected so far are acc (the comment is emitted at its end only when
it spans fewer than 4 lines). -/
def filtAux : Option (List Line) → List Line → List Line
  | none, [] => []
  | some acc, [] => if acc.length < 4 then acc else []
  | none, l :: rest =>
    if beginsComment l then filtAux (some [l]) rest
    else if isDecorative l then filtAux none rest
    else if isExampleSkip l then filtAux none rest
    else l :: filtAux none rest
  | some acc, l :: rest =>
    if containsClose l then
      (if (acc ++ [l]).length < 4 then acc ++ [l] else []) ++ filtAux none rest
    else filtAux (some (acc ++ [l])) rest

/-- Step 2 of aggressive_simplify: the line loop run from the normal state. -/
def filterLines (ls : List Line) : List Line := filtAux none ls

/-- The lines a comment block consumes after its opening line: everything
through the first subsequent line containing the closing marker, or all
remaining lines when no such line exists. -/
def takeToClose : List Line → List Line
  | [] => []
  | x :: xs => if containsClose x then [x] else x :: takeToClose xs

/-- The lines remaining after a comment block: everything after the first
subsequent line containing the closing marker, or nothing. -/
def dropPastClose : List Line → List Line
  | [] => []
  | x :: xs => if containsClose x then xs else dropPastClose xs

/- ===== aggressive_simplify.py, step 3: Block Scanner ===== -/

/-- The entry-header literal of re.search(r'func main\(\) \x7b', content). -/
def headerChars : List Char := "func main() \x7b".toList

/-- The depth-counting loop of aggressive_simplify.py lines 66-80: position
of the first closing brace reached at depth 0, scanning left to right with
depth incremented on each opening brace and decremented on each closing
brace seen at positive depth. -/
def findClose : List Char → Nat → Option Nat
  | [], _ => none
  | c :: rest, d =>
    if c = '\x7b' then (findClose rest (d + 1)).map (fun n => n + 1)
    else if c = '\x7d' then
      if d = 0 then some 0 else (findClose rest (d - 1)).map (fun n => n + 1)
    else (findClose rest d).map (fun n => n + 1)

/-- Step 3 of aggressive_simplify (lines 62-80): find the entry header,
scan for its matching closing brace, and truncate the document through that
brace; the document is returned unchanged when the header is absent or the
scan exhausts the document. -/
def scanMain (s : List Char) : List Char :=
  match findSub headerChars s with
  | none => s
  | some i =>
    match findClose (s.drop (i + headerChars.length)) 0 with
    | none => s
    | some k => s.take (i + headerChars.length + k + 1)

/-- The property of being the closing brace that the scan at initial depth d
stops at: position k holds a closing brace and the preceding scanned prefix
contains exactly d more closing than opening braces. -/
def braceCloseD (cs : List Char) (d k : Nat) : Prop :=
  cs[k]? = some '\x7d' ∧ (cs.take k).count '\x7d' = (cs.take k).count '\x7b' + d

instance (cs : List Char) (d k : Nat) : Decidable (braceCloseD cs d k) := by
  unfold braceCloseD; infer_instance

/- ===== aggressive_simplify.py, step 4: blank-run collapse ===== -/

/-- One scan of re.sub(r'\n\x7b3,\x7d', '\n\n', content): the Nat argument
counts the consecutive newlines already seen; from the third newline of a
run onward nothing is emitted. -/
def collapseAux : Nat → List Char → List Char
  | _, [] => []
  | n, c :: rest =>
    if c = '\n' then
      if 2 ≤ n then collapseAux (n + 1) rest
      else '\n' :: collapseAux (n + 1) rest
    else c :: collapseAux 0 rest

/-- Step 4 of aggressive_simplify (line 83). -/
def collapseNewlines (s : List Char) : List Char := collapseAux 0 s

/- ===== aggressive_simplify.py, step 5: decorative Unicode cleanup ===== -/

/-- The box-drawing character class of re.sub(r'[╔╚║╝═╞╡╤╪╟╢═]\x7b2,\x7d', '', content). -/
def isBoxChar (c : Char) : Bool :=
  c = '╔' || c = '╚' || c = '║' || c = '╝' || c = '═' || c = '╞' || c = '╡' ||
  c = '╤' || c = '╪' || c = '╟' || c = '╢'

/-- Scanner state for the box-drawing cleanup: clean (no pending box char),
pending c (one box char seen, emission undecided), dropping (inside a run of
two or more box chars, which the regex removes wholly). -/
inductive BoxState where
  | clean : BoxState
  | pending : Char → BoxState
  | dropping : BoxState

/-- One scan of the box-drawing cleanup: maximal runs of 2 or more box
characters are removed, isolated box characters are kept. -/
def boxAux : BoxState → List Char → List Char
  | .clean, [] => []
  | .pending d, [] => [d]
  | .dropping, [] => []
  | .clean, c :: rest =>
    if isBoxChar c then boxAux (.pending c) rest else c :: boxAux .clean rest
  | .pending d, c :: rest =>
    if isBoxChar c then boxAux .dropping rest else d :: c :: boxAux .clean rest
  | .dropping, c :: rest =>
    if isBoxChar c then boxAux .dropping rest else c :: boxAux .clean rest

/-- Step 5 of aggressive_simplify (line 86). -/
def boxRemove (s : List Char) : List Char := boxAux .clean s

/- ===== aggressive_simplify.py: document split/join and full pipeline ===== -/

/-- Python content.split('\n'). -/
def splitNL : List Char → List Line
  | [] => [[]]
  | c :: rest =>
    if c = '\n' then [] :: splitNL rest
    else
      match splitNL rest with
      | [] => [[c]]
      | l :: ls => (c :: l) :: ls

/-- Python '\n'.join(lines). -/
def joinNL : List Line → List Char
  | [] => []
  | [l] => l
  | l :: ls => l ++ '\n' :: joinNL ls

/-- The document as it reaches the Block Scanner: package rewrite followed by
the line-oriented Noise Filter (steps 1-2 of aggressive_simplify). -/
def noiseFiltered (s : List Char) : List Char :=
  joinNL (filterLines (splitNL (packageRewrite s)))

/-- The full aggressive_simplify pipeline (lines 10-91): package rewrite,
Noise Filter, Block Scanner truncation, blank-run collapse, decorative
Unicode cleanup. -/
def aggressive_simplify (s : List Char) : List Char :=
  boxRemove (collapseNewlines (scanMain (noiseFiltered s)))

/- ===== simplify_files.py, step 5: section-skip filter ===== -/

/-- 'KEY TAKEAWAYS' in line or 'COMPREHENSIVE GUIDE' in line
(simplify_files.py line 57). -/
def isMarkerLine (l : Line) : Bool :=
  isSub "KEY TAKEAWAYS".toList l || isSub "COMPREHENSIVE GUIDE".toList l

/-- line.strip().startswith('func ')  (simplify_files.py line 59). -/
def startsFunc (l : Line) : Bool := "func ".toList.isPrefixOf (pyStrip l)

/-- The loop of simplify_files.py lines 56-63: the Bool argument is the
skip_section flag; a marker line sets it, a line whose trimmed content
begins with 'func ' clears it (unless the line is itself a marker, since
the marker test comes first), and a line is emitted exactly when the flag
is false after the update. -/
def skipAux : Bool → List Line → List Line
  | _, [] => []
  | skip, l :: rest =>
    let skip2 := if isMarkerLine l then true
                 else if skip && startsFunc l then false
                 else skip
    if skip2 then skipAux skip2 rest else l :: skipAux skip2 rest

/-- Step 5 of simplify_go_file (lines 51-65), started with skip_section
false. -/
def skipFilter (ls : List Line) : List Line := skipAux false ls

/- ===== helper lemmas: substring search ===== -/

lemma isPrefixOf_ex {l1 l2 : List Char} (h : l1.isPrefixOf l2 = true) :
    ∃ t, l2 = l1 ++ t := by
  induction l1 generalizing l2 with
  | nil => exact ⟨l2, rfl⟩
  | cons a t1 ih =>
    cases l2 with
    | nil => simp [List.isPrefixOf] at h
    | cons b t2 =>
      simp only [List.isPrefixOf, Bool.and_eq_true, beq_iff_eq] at h
      obtain ⟨rfl, h2⟩ := h
      obtain ⟨t, rfl⟩ := ih h2
      exact ⟨t, rfl⟩

lemma isPrefixOf_append_self (l t : List Char) : l.isPrefixOf (l ++ t) = true := by
  induction l with
  | nil => simp [List.isPrefixOf]
  | cons a l ih => simp [List.isPrefixOf, ih]

lemma findSub_some_isPrefixOf {pat s : List Char} {i : Nat}
    (h : findSub pat s = some i) : pat.isPrefixOf (s.drop i) = true := by
  induction s generalizing i with
  | nil =>
    simp only [findSub] at h
    split at h
    · rename_i hp; cases h; simpa using hp
    · cases h
  | cons c t ih =>
    simp only [findSub] at h
    split at h
    · rename_i hp; cases h; simpa using hp
    · rename_i hp
      cases hft : findSub pat t with
      | none => rw [hft] at h; cases h
      | some j =>
        rw [hft] at h
        simp at h
        subst h
        simpa using ih hft

lemma occursIn_of_findSub {pat s : List Char} {i : Nat}
    (h : findSub pat s = some i) : occursIn pat s := by
  obtain ⟨t, ht⟩ := isPrefixOf_ex (findSub_some_isPrefixOf h)
  exact ⟨s.take i, t, by rw [List.append_assoc, ← ht, List.take_append_drop]⟩

lemma findSub_ne_none_of_isPrefixOf {pat s : List Char}
    (h : pat.isPrefixOf s = true) : findSub pat s ≠ none := by
  cases s with
  | nil => simp [findSub, h]
  | cons c t => simp [findSub, h]

lemma findSub_ne_none_of_occursIn {pat s : List Char}
    (h : occursIn pat s) : findSub pat s ≠ none := by
  obtain ⟨a, b, rfl⟩ := h
  induction a with
  | nil =>
    exact findSub_ne_none_of_isPrefixOf (by simp [isPrefixOf_append_self])
  | cons c as ih =>
    show findSub pat (c :: (as ++ pat ++ b)) ≠ none
    simp only [findSub]
    split
    · simp
    · cases hfs : findSub pat (as ++ pat ++ b) with
      | none => exact absurd hfs ih
      | some j => simp

/- ===== helper lemmas: Block Scanner depth counting ===== -/

lemma bc_zero (c : Char) (cs : List Char) (d : Nat) :
    braceCloseD (c :: cs) d 0 ↔ (c = '\x7d' ∧ d = 0) := by
  simp only [braceCloseD, List.getElem?_cons_zero, Option.some.injEq, List.take_zero,
    List.count_nil]
  constructor <;> rintro ⟨h1, h2⟩ <;> exact ⟨h1, by omega⟩

lemma bc_succ_open (cs : List Char) (d k : Nat) :
    braceCloseD ('\x7b' :: cs) d (k + 1) ↔ braceCloseD cs (d + 1) k := by
  unfold braceCloseD
  rw [List.getElem?_cons_succ, List.take_succ_cons,
    List.count_cons_of_ne (by decide : ('\x7d' : Char) ≠ '\x7b'),
    List.count_cons_self]
  constructor <;> rintro ⟨h1, h2⟩ <;> exact ⟨h1, by omega⟩

lemma bc_succ_close (cs : List Char) (d k : Nat) :
    braceCloseD ('\x7d' :: cs) (d + 1) (k + 1) ↔ braceCloseD cs d k := by
  unfold braceCloseD
  rw [List.getElem?_cons_succ, List.take_succ_cons, List.count_cons_self,
    List.count_cons_of_ne (by decide : ('\x7b' : Char) ≠ '\x7d')]
  constructor <;> rintro ⟨h1, h2⟩ <;> exact ⟨h1, by omega⟩

lemma bc_succ_other {c : Char} (cs : List Char) (d k : Nat)
    (h1 : c ≠ '\x7b') (h2 : c ≠ '\x7d') :
    braceCloseD (c :: cs) d (k + 1) ↔ braceCloseD cs d k := by
  unfold braceCloseD
  rw [List.getElem?_cons_succ, List.take_succ_cons,
    List.count_cons_of_ne (Ne.symm h2), List.count_cons_of_ne (Ne.symm h1)]

lemma findClose_open (rest : List Char) (d : Nat) :
    findClose ('\x7b' :: rest) d = (findClose rest (d + 1)).map (fun n => n + 1) := rfl

lemma findClose_close_zero (rest : List Char) :
    findClose ('\x7d' :: rest) 0 = some 0 := rfl

lemma findClose_close_succ (rest : List Char) (d : Nat) :
    findClose ('\x7d' :: rest) (d + 1) = (findClose rest d).map (fun n => n + 1) := rfl

lemma findClose_other {c : Char} (rest : List Char) (d : Nat)
    (h1 : c ≠ '\x7b') (h2 : c ≠ '\x7d') :
    findClose (c :: rest) d = (findClose rest d).map (fun n => n + 1) := by
  simp [findClose, h1, h2]

lemma findClose_some_bc :
    ∀ (cs : List Char) (d k : Nat), findClose cs d = some k → braceCloseD cs d k := by
  intro cs
  induction cs with
  | nil => intro d k h; simp [findClose] at h
  | cons c rest ih =>
    intro d k h
    by_cases hob : c = '\x7b'
    · subst hob
      rw [findClose_open] at h
      cases hfc : findClose rest (d + 1) with
      | none => rw [hfc] at h; cases h
      | some j =>
        rw [hfc] at h
        simp only [Option.map_some'] at h
        cases h
        exact (bc_succ_open rest d j).mpr (ih (d + 1) j hfc)
    · by_cases hcb : c = '\x7d'
      · subst hcb
        cases d with
        | zero =>
          rw [findClose_close_zero] at h
          cases h
          exact (bc_zero _ _ _).mpr ⟨rfl, rfl⟩
        | succ e =>
          rw [findClose_close_succ] at h
          cases hfc : findClose rest e with
          | none => rw [hfc] at h; cases h
          | some j =>
            rw [hfc] at h
            simp only [Option.map_some'] at h
            cases h
            exact (bc_succ_close rest e j).mpr (ih e j hfc)
      · rw [findClose_other rest d hob hcb] at h
        cases hfc : findClose rest d with
        | none => rw [hfc] at h; cases h
        | some j =>
          rw [hfc] at h
          simp only [Option.map_some'] at h
          cases h
          exact (bc_succ_other rest d j hob hcb).mpr (ih d j hfc)

lemma findClose_some_min :
    ∀ (cs : List Char) (d k : Nat), findClose cs d = some k →
      ∀ j, j < k → ¬ braceCloseD cs d j := by
  intro cs
  induction cs with
  | nil => intro d k h; simp [findClose] at h
  | cons c rest ih =>
    intro d k h j hj hbc
    by_cases hob : c = '\x7b'
    · subst hob
      rw [findClose_open] at h
      cases hfc : findClose rest (d + 1) with
      | none => rw [hfc] at h; cases h
      | some j2 =>
        rw [hfc] at h
        simp only [Option.map_some'] at h
        cases h
        cases j with
        | zero => exact absurd ((bc_zero _ _ _).mp hbc).1 (by decide)
        | succ j3 =>
          exact ih (d + 1) j2 hfc j3 (by omega) ((bc_succ_open _ _ _).mp hbc)
    · by_cases hcb : c = '\x7d'
      · subst hcb
        cases d with
        | zero =>
          rw [findClose_close_zero] at h
          cases h
          exact absurd hj (Nat.not_lt_zero j)
        | succ e =>
          rw [findClose_close_succ] at h
          cases hfc : findClose rest e with
          | none => rw [hfc] at h; cases h
          | some j2 =>
            rw [hfc] at h
            simp only [Option.map_some'] at h
            cases h
            cases j with
            | zero => exact absurd ((bc_zero _ _ _).mp hbc).2 (by omega)
            | succ j3 =>
              exact ih e j2 hfc j3 (by omega) ((bc_succ_close _ _ _).mp hbc)
      · rw [findClose_other rest d hob hcb] at h
        cases hfc : findClose rest d with
        | none => rw [hfc] at h; cases h
        | some j2 =>
          rw [hfc] at h
          simp only [Option.map_some'] at h
          cases h
          cases j with
          | zero => exact absurd ((bc_zero _ _ _).mp hbc).1 hcb
          | succ j3 =>
            exact ih d j2 hfc j3 (by omega) ((bc_succ_other _ _ _ hob hcb).mp hbc)

lemma findClose_none_bc :
    ∀ (cs : List Char) (d : Nat), findClose cs d = none → ∀ k, ¬ braceCloseD cs d k := by
  intro cs
  induction cs with
  | nil =>
    intro d _ k hbc
    obtain ⟨h1, _⟩ := hbc
    simp at h1
  | cons c rest ih =>
    intro d h k hbc
    by_cases hob : c = '\x7b'
    · subst hob
      rw [findClose_open] at h
      cases hfc : findClose rest (d + 1) with
      | some j => simp [hfc] at h
      | none =>
        cases k with
        | zero => exact absurd ((bc_zero _ _ _).mp hbc).1 (by decide)
        | succ k2 => exact ih (d + 1) hfc k2 ((bc_succ_open _ _ _).mp hbc)
    · by_cases hcb : c = '\x7d'
      · subst hcb
        cases d with
        | zero => rw [findClose_close_zero] at h; cases h
        | succ e =>
          rw [findClose_close_succ] at h
          cases hfc : findClose rest e with
          | some j => simp [hfc] at h
          | none =>
            cases k with
            | zero => exact absurd ((bc_zero _ _ _).mp hbc).2 (by omega)
            | succ k2 => exact ih e hfc k2 ((bc_succ_close _ _ _).mp hbc)
      · rw [findClose_other rest d hob hcb] at h
        cases hfc : findClose rest d with
        | some j => simp [hfc] at h
        | none =>
          cases k with
          | zero => exact absurd ((bc_zero _ _ _).mp hbc).1 hcb
          | succ k2 =>
            exact ih d hfc k2 ((bc_succ_other _ _ _ hob hcb).mp hbc)

lemma findClose_count (cs : List Char) (d k : Nat) (h : findClose cs d = some k) :
    (cs.take (k + 1)).count '\x7d' = (cs.take (k + 1)).count '\x7b' + d + 1 := by
  obtain ⟨h1, h2⟩ := findClose_some_bc cs d k h
  have hk : cs.take (k + 1) = cs.take k ++ ['\x7d'] := by
    rw [List.take_succ, h1]
    rfl
  rw [hk, List.count_append, List.count_append]
  have e1 : (['\x7d'] : List Char).count '\x7d' = 1 := by decide
  have e2 : (['\x7d'] : List Char).count '\x7b' = 0 := by decide
  omega

lemma scanMain_eq_of_none {s : List Char} (h : findSub headerChars s = none) :
    scanMain s = s := by
  unfold scanMain
  rw [h]

lemma scanMain_eq_of_close_none {s : List Char} {i : Nat}
    (h1 : findSub headerChars s = some i)
    (h2 : findClose (s.drop (i + headerChars.length)) 0 = none) :
    scanMain s = s := by
  simp [scanMain, h1, h2]

lemma scanMain_eq_of_close_some {s : List Char} {i k : Nat}
    (h1 : findSub headerChars s = some i)
    (h2 : findClose (s.drop (i + headerChars.length)) 0 = some k) :
    scanMain s = s.take (i + headerChars.length + k + 1) := by
  simp [scanMain, h1, h2]

/- ===== claims about the Block Scanner ===== -/

/-- C1: for a document containing the entry-header literal, the Block
Scanner truncates the document to the prefix ending, inclusively, at the
first closing brace encountered at depth 0 after the header — the least
position k of the scanned region holding a closing brace whose preceding
region prefix has equally many opening and closing braces.  Closing braces
of nested inner blocks (positions failing that balance condition) never
terminate the scan, and everything after the matching closing brace is
discarded. -/
theorem scanner_truncates_at_matching_close (s : List Char) (i k : Nat)
    (h1 : findSub headerChars s = some i)
    (h2 : braceCloseD (s.drop (i + headerChars.length)) 0 k)
    (h3 : ∀ j, j < k → ¬ braceCloseD (s.drop (i + headerChars.length)) 0 j) :
    scanMain s = s.take (i + headerChars.length + k + 1) := by
  cases hfc : findClose (s.drop (i + headerChars.length)) 0 with
  | none => exact absurd h2 (findClose_none_bc _ _ hfc k)
  | some k2 =>
    have hbc2 := findClose_some_bc _ _ _ hfc
    have hk : k2 = k := by
      rcases lt_trichotomy k2 k with h | h | h
      · exact absurd hbc2 (h3 k2 h)
      · exact h
      · exact absurd h2 (findClose_some_min _ _ _ hfc k h)
    subst hk
    exact scanMain_eq_of_close_some h1 hfc

/-- Witness for C1: a document with one nested inner block; the scan stops
at the depth-0 closing brace and the tail is discarded. -/
theorem scanner_truncates_at_matching_close_witness :
    scanMain "func main() \x7b a \x7b b \x7d c \x7d tail".toList =
      "func main() \x7b a \x7b b \x7d c \x7d tail".toList.take
        (0 + headerChars.length + 11 + 1) :=
  scanner_truncates_at_matching_close _ 0 11 (by decide) (by decide)
    (by decide)

/-- C2: for a document containing the entry-header literal whose scanned
region has no closing brace at depth 0 (no position satisfies the
matching-close condition), the Block Scanner leaves the document completely
unmodified. -/
theorem scanner_id_of_unterminated (s : List Char) (i : Nat)
    (h1 : findSub headerChars s = some i)
    (h2 : ∀ k, ¬ braceCloseD (s.drop (i + headerChars.length)) 0 k) :
    scanMain s = s := by
  cases hfc : findClose (s.drop (i + headerChars.length)) 0 with
  | none => exact scanMain_eq_of_close_none h1 hfc
  | some k => exact absurd (findClose_some_bc _ _ _ hfc) (h2 k)

/-- Witness for C2: a document whose entry block is never closed. -/
theorem scanner_id_of_unterminated_witness :
    scanMain "func main() \x7b".toList = "func main() \x7b".toList :=
  scanner_id_of_unterminated _ 0 (by decide)
    (fun k hk => by
      have h1 : ("func main() \x7b".toList.drop (0 + headerChars.length))[k]? = some '\x7d' := hk.1
      have hreg : "func main() \x7b".toList.drop (0 + headerChars.length) = ([] : List Char) := by
        decide
      rw [hreg, List.getElem?_nil] at h1
      exact Option.noConfusion h1)

/-- C3: for a document in which the entry-header pattern does not occur,
the Block Scanner is the identity, and the pipeline output equals the Noise
Filter output (package rewrite and line filter, followed only by the
blank-run collapse and the decorative Unicode cleanup), unchanged by the
Scanner. -/
theorem scanner_pass_through_on_absence (s : List Char)
    (h : ¬ occursIn headerChars (noiseFiltered s)) :
    scanMain (noiseFiltered s) = noiseFiltered s ∧
    aggressive_simplify s = boxRemove (collapseNewlines (noiseFiltered s)) := by
  have hid : scanMain (noiseFiltered s) = noiseFiltered s := by
    cases hfs : findSub headerChars (noiseFiltered s) with
    | none => exact scanMain_eq_of_none hfs
    | some i => exact absurd (occursIn_of_findSub hfs) h
  refine ⟨hid, ?_⟩
  unfold aggressive_simplify
  rw [hid]

/-- Witness for C3: a library-style document with no entry header. -/
theorem scanner_pass_through_on_absence_witness :
    scanMain (noiseFiltered "func helper() \x7b\x7d\ndone".toList) =
      noiseFiltered "func helper() \x7b\x7d\ndone".toList ∧
    aggressive_simplify "func helper() \x7b\x7d\ndone".toList =
      boxRemove (collapseNewlines (noiseFiltered "func helper() \x7b\x7d\ndone".toList)) :=
  scanner_pass_through_on_absence _
    (fun hocc => findSub_ne_none_of_occursIn hocc (by decide))

/-- C9 counterexample: a successful scan whose output contains one opening
and two closing braces, because the text before the entry header (here a
single closing brace) is retained in the output uncounted. -/
theorem scanner_output_unbalanced_cx :
    findSub headerChars "\x7dfunc main() \x7b\x7d".toList = some 1 ∧
    findClose ("\x7dfunc main() \x7b\x7d".toList.drop (1 + headerChars.length)) 0 = some 0 ∧
    (scanMain "\x7dfunc main() \x7b\x7d".toList).count '\x7b' ≠
      (scanMain "\x7dfunc main() \x7b\x7d".toList).count '\x7d' := by
  decide

/-- C9 amended: on a successful match, the part of the Block Scanner output
from the start of the matched header onward is brace-balanced; the prefix
kept before the header is untouched and may carry its own braces. -/
theorem scanner_output_balanced_from_header (s : List Char) (i k : Nat)
    (h1 : findSub headerChars s = some i)
    (h2 : findClose (s.drop (i + headerChars.length)) 0 = some k) :
    ((scanMain s).drop i).count '\x7b' = ((scanMain s).drop i).count '\x7d' := by
  rw [scanMain_eq_of_close_some h1 h2]
  rw [List.drop_take]
  have harith : i + headerChars.length + k + 1 - i = headerChars.length + (k + 1) := by omega
  rw [harith]
  obtain ⟨t, ht⟩ := isPrefixOf_ex (findSub_some_isPrefixOf h1)
  have ht2 : t = s.drop (i + headerChars.length) := by
    have : (s.drop i).drop headerChars.length = t := by
      rw [ht, List.drop_left]
    rw [← this, List.drop_drop, Nat.add_comm]
  rw [ht, ht2, List.take_append]
  rw [List.count_append, List.count_append]
  have e1 : headerChars.count '\x7b' = 1 := by decide
  have e2 : headerChars.count '\x7d' = 0 := by decide
  have e3 := findClose_count _ _ _ h2
  omega

/-- Witness for C9 amended: the unbalanced-output counterexample document is
balanced from the header position on. -/
theorem scanner_output_balanced_from_header_witness :
    ((scanMain "\x7dfunc main() \x7b\x7d".toList).drop 1).count '\x7b' =
      ((scanMain "\x7dfunc main() \x7b\x7d".toList).drop 1).count '\x7d' :=
  scanner_output_balanced_from_header _ 1 0 (by decide) (by decide)

/- ===== helper lemmas: Noise Filter comment blocks ===== -/

lemma filtAux_some (rest : List Line) :
    ∀ acc : List Line,
      filtAux (some acc) rest =
        (if (acc ++ takeToClose rest).length < 4 then acc ++ takeToClose rest else []) ++
          filtAux none (dropPastClose rest) := by
  induction rest with
  | nil =>
    intro acc
    simp [filtAux, takeToClose, dropPastClose]
  | cons x xs ih =>
    intro acc
    by_cases hc : containsClose x = true
    · simp [filtAux, takeToClose, dropPastClose, hc]
    · simp only [filtAux, takeToClose, dropPastClose, hc, if_false, ite_false]
      rw [ih (acc ++ [x])]
      simp [List.append_assoc]

lemma takeToClose_first (rest : List Line) :
    ∀ j x, rest[j]? = some x → containsClose x = true →
      (∀ j2, j2 < j → ∀ y, rest[j2]? = some y → containsClose y = false) →
      takeToClose rest = rest.take (j + 1) ∧ dropPastClose rest = rest.drop (j + 1) := by
  induction rest with
  | nil =>
    intro j x hx _ _
    rw [List.getElem?_nil] at hx
    exact Option.noConfusion hx
  | cons z zs ih =>
    intro j x hx hcx hmin
    cases j with
    | zero =>
      rw [List.getElem?_cons_zero] at hx
      cases hx
      simp [takeToClose, dropPastClose, hcx]
    | succ j2 =>
      have hz : containsClose z = false := hmin 0 (by omega) z (by simp)
      rw [List.getElem?_cons_succ] at hx
      have hmin2 : ∀ j3, j3 < j2 → ∀ y, zs[j3]? = some y → containsClose y = false := by
        intro j3 hj3 y hy
        refine hmin (j3 + 1) (by omega) y ?_
        rw [List.getElem?_cons_succ]
        exact hy
      obtain ⟨ht, hd⟩ := ih j2 x hx hcx hmin2
      constructor
      · simp [takeToClose, hz, ht, List.take_succ_cons]
      · simp [dropPastClose, hz, hd, List.drop_succ_cons]

lemma takeToClose_all :
    ∀ rest : List Line, (∀ x ∈ rest, containsClose x = false) →
      takeToClose rest = rest ∧ dropPastClose rest = [] := by
  intro rest
  induction rest with
  | nil => intro _; exact ⟨rfl, rfl⟩
  | cons z zs ih =>
    intro h
    have hz : containsClose z = false := h z (List.mem_cons_self z zs)
    obtain ⟨ht, hd⟩ := ih (fun x hx => h x (List.mem_cons_of_mem z hx))
    constructor
    · simp [takeToClose, hz, ht]
    · simp [dropPastClose, hz, hd]

lemma takeWhile_length_ge (p : Char → Bool) (suf : List Char) :
    ∀ pre : List Char, (∀ c ∈ pre, p c = true) →
      pre.length ≤ ((pre ++ suf).takeWhile p).length := by
  intro pre
  induction pre with
  | nil => intro _; simp
  | cons a t ih =>
    intro h
    have ha : p a = true := h a (List.mem_cons_self a t)
    have ht := ih (fun c hc => h c (List.mem_cons_of_mem a hc))
    simp [List.cons_append, List.takeWhile_cons, ha]
    omega

/- ===== claims about the Noise Filter ===== -/

/-- C4: when the Noise Filter meets a line whose trimmed content begins
with the block-comment opening marker, it consumes lines through the first
subsequent line containing the closing marker (or through end of document
when no closing marker exists, without failing), forming a comment block;
the block is emitted in full exactly when it spans fewer than 4 lines and
nothing is emitted for it otherwise. -/
theorem filter_comment_block (l : Line) (rest : List Line)
    (h : beginsComment l = true) :
    (filterLines (l :: rest) =
      (if (l :: takeToClose rest).length < 4 then l :: takeToClose rest else []) ++
        filterLines (dropPastClose rest)) ∧
    (∀ j x, rest[j]? = some x → containsClose x = true →
      (∀ j2, j2 < j → ∀ y, rest[j2]? = some y → containsClose y = false) →
      takeToClose rest = rest.take (j + 1) ∧ dropPastClose rest = rest.drop (j + 1)) ∧
    ((∀ x ∈ rest, containsClose x = false) →
      takeToClose rest = rest ∧ dropPastClose rest = []) := by
  refine ⟨?_, takeToClose_first rest, takeToClose_all rest⟩
  show filtAux none (l :: rest) = _
  rw [show filtAux none (l :: rest) = filtAux (some [l]) rest from by simp [filtAux, h]]
  rw [filtAux_some rest [l]]
  rfl

/-- Witness for C4: a three-line comment block is consumed and, being
shorter than 4 lines, emitted in full. -/
theorem filter_comment_block_witness :
    filterLines ["/* a".toList, "b".toList, "c */".toList, "d".toList] =
      (if (("/* a".toList : Line) ::
            takeToClose ["b".toList, "c */".toList, "d".toList]).length < 4
        then ("/* a".toList : Line) :: takeToClose ["b".toList, "c */".toList, "d".toList]
        else []) ++
        filterLines (dropPastClose ["b".toList, "c */".toList, "d".toList]) :=
  (filter_comment_block _ _ (by decide)).1

/-- C10: the closing marker is not recognised on the opening line of a
comment block: even when the opening line itself contains the closing
marker, the scan consumes subsequent lines through the next later line
containing the marker, so following non-comment lines can be absorbed into
the block and dropped with it when the block reaches 4 lines. -/
theorem comment_close_on_opening_line_ignored (l : Line) (rest : List Line)
    (h1 : beginsComment l = true) (h2 : containsClose l = true) :
    filterLines (l :: rest) =
      (if (l :: takeToClose rest).length < 4 then l :: takeToClose rest else []) ++
        filterLines (dropPastClose rest) := by
  have hu : containsClose l = true := h2
  show filtAux none (l :: rest) = _
  rw [show filtAux none (l :: rest) = filtAux (some [l]) rest from by simp [filtAux, h1]]
  rw [filtAux_some rest [l]]
  rfl

/-- Witness for C10: a one-line comment followed by two code lines and a
line containing the closing marker forms a 4-line block that is dropped
wholly; only the line after the absorbed closing line survives. -/
theorem comment_close_on_opening_line_ignored_witness :
    filterLines ["/* x */".toList, "a".toList, "b".toList, "c */".toList, "d".toList] =
      ["d".toList] := by
  have h := comment_close_on_opening_line_ignored "/* x */".toList
    ["a".toList, "b".toList, "c */".toList, "d".toList] (by decide) (by decide)
  rw [h]
  decide

/-- C5 counterexample: a line whose first 30 characters are separator
characters but which then carries other content (so its entire content does
not match the separator pattern) is nevertheless removed by the
decorative-line rule. -/
theorem decorative_trailing_content_removed_cx :
    (List.replicate 30 '=' ++ ['x']).all isSepChar = false ∧
    filterLines [List.replicate 30 '=' ++ ['x']] = [] := by
  decide

/-- C5 amended: outside comment blocks, the decorative-line rule removes a
line if and only if the line has a prefix of at least 30 characters drawn
from the separator alphabet (slash, equals sign, whitespace, underscore,
hyphen); trailing content after such a prefix does not prevent removal.  In
particular a line of 40 repeated equals signs is removed at any position
outside comment blocks. -/
theorem decorative_rule_removes_sep_prefixed_lines (l : Line) (rest : List Line)
    (h1 : beginsComment l = false) :
    (isDecorative l = true ↔
      ∃ pre suf, l = pre ++ suf ∧ 30 ≤ pre.length ∧ ∀ c ∈ pre, isSepChar c = true) ∧
    (isDecorative l = true → filterLines (l :: rest) = filterLines rest) := by
  constructor
  · constructor
    · intro hd
      rw [isDecorative, decide_eq_true_eq] at hd
      refine ⟨l.takeWhile isSepChar, l.dropWhile isSepChar,
        (List.takeWhile_append_dropWhile isSepChar l).symm, hd, ?_⟩
      intro c hc
      exact List.mem_takeWhile_imp hc
    · rintro ⟨pre, suf, rfl, hlen, hsep⟩
      rw [isDecorative, decide_eq_true_eq]
      exact le_trans hlen (takeWhile_length_ge isSepChar suf pre hsep)
  · intro hd
    show filtAux none (l :: rest) = filtAux none rest
    simp [filtAux, h1, hd]

/-- Witness for C5 amended: a line of 40 repeated equals signs is removed
and the following line survives. -/
theorem decorative_rule_removes_sep_prefixed_lines_witness :
    filterLines [List.replicate 40 '=', ['x']] = [['x']] := by
  have h := (decorative_rule_removes_sep_prefixed_lines (List.replicate 40 '=') [['x']]
    (by decide)).2 (by decide)
  rw [h]
  decide

/- ===== helper lemmas: section-skip filter ===== -/

lemma skipAux_false_append :
    ∀ (pre r : List Line), (∀ l ∈ pre, isMarkerLine l = false) →
      skipAux false (pre ++ r) = pre ++ skipAux false r := by
  intro pre
  induction pre with
  | nil => intro r _; rfl
  | cons x xs ih =>
    intro r h
    have hx : isMarkerLine x = false := h x (List.mem_cons_self x xs)
    have ih2 := ih r (fun l hl => h l (List.mem_cons_of_mem x hl))
    simp [skipAux, hx, ih2]

lemma skipAux_true_section :
    ∀ (mid : List Line) (f : Line) (post : List Line),
      (∀ l ∈ mid, isMarkerLine l = true ∨ startsFunc l = false) →
      isMarkerLine f = false → startsFunc f = true →
      skipAux true (mid ++ f :: post) = f :: skipAux false post := by
  intro mid
  induction mid with
  | nil =>
    intro f post _ hf1 hf2
    simp [skipAux, hf1, hf2]
  | cons x xs ih =>
    intro f post h hf1 hf2
    have hrec := ih f post (fun l hl => h l (List.mem_cons_of_mem x hl)) hf1 hf2
    show skipAux true (x :: (xs ++ f :: post)) = f :: skipAux false post
    cases hmx : isMarkerLine x with
    | true => simp [skipAux, hmx, hrec]
    | false =>
      have hx : startsFunc x = false := by
        rcases h x (List.mem_cons_self x xs) with hx | hx
        · rw [hmx] at hx; exact absurd hx (by simp)
        · exact hx
      simp [skipAux, hmx, hx, hrec]

/- ===== claims about the section-skip filter ===== -/

/-- C6 counterexample: the first line after the marker whose trimmed
content begins with the function keyword is itself a marker line, so it
does not clear the skip and is omitted, while the claim requires it to be
emitted. -/
theorem skip_clearing_line_with_marker_cx :
    startsFunc "func KEY TAKEAWAYS()".toList = true ∧
    skipFilter ["KEY TAKEAWAYS".toList, "func KEY TAKEAWAYS()".toList] = [] := by
  decide

/-- C6 amended: in the section-skip filter, a marker line and every
following line are omitted up to but not including the next line that both
begins (after trimming) with the function keyword and does not itself
contain a banned marker phrase — the marker test takes precedence over the
clearing test; that clearing line is emitted and emission resumes from
it. -/
theorem skip_section_until_clearing_func (pre mid post : List Line) (m f : Line)
    (hpre : ∀ l ∈ pre, isMarkerLine l = false)
    (hm : isMarkerLine m = true)
    (hmid : ∀ l ∈ mid, isMarkerLine l = true ∨ startsFunc l = false)
    (hf1 : isMarkerLine f = false) (hf2 : startsFunc f = true) :
    skipFilter (pre ++ m :: (mid ++ f :: post)) = pre ++ f :: skipFilter post := by
  show skipAux false (pre ++ m :: (mid ++ f :: post)) = pre ++ f :: skipAux false post
  rw [skipAux_false_append pre (m :: (mid ++ f :: post)) hpre]
  congr 1
  have hstep : skipAux false (m :: (mid ++ f :: post)) = skipAux true (mid ++ f :: post) := by
    simp [skipAux, hm]
  rw [hstep, skipAux_true_section mid f post hmid hf1 hf2]

/-- Witness for C6 amended: a marker section is skipped and emission
resumes at the clearing function line. -/
theorem skip_section_until_clearing_func_witness :
    skipFilter ["a".toList, "KEY TAKEAWAYS here".toList, "gone".toList,
        "func g() \x7b".toList, "c".toList] =
      ["a".toList, "func g() \x7b".toList, "c".toList] := by
  have h := skip_section_until_clearing_func ["a".toList] ["gone".toList] ["c".toList]
    "KEY TAKEAWAYS here".toList "func g() \x7b".toList
    (by decide) (by decide) (by decide) (by decide) (by decide)
  exact h.trans (by decide)

/- ===== helper lemmas: blank-run collapse ===== -/

/-- The first character is a newline. -/
def startsNL : List Char → Bool
  | [] => false
  | c :: _ => c = '\n'

/-- The first two characters are newlines. -/
def startsTwoNL : List Char → Bool
  | [] => false
  | c :: t => c = '\n' && startsNL t

/-- No three consecutive newline characters occur. -/
def noTripleNL : List Char → Bool
  | [] => true
  | [_] => true
  | [_, _] => true
  | a :: b :: c :: rest => !(a = '\n' && b = '\n' && c = '\n') && noTripleNL (b :: c :: rest)

lemma noTriple_cons {x : Char} {l : List Char}
    (h1 : noTripleNL l = true) (h2 : x ≠ '\n' ∨ startsTwoNL l = false) :
    noTripleNL (x :: l) = true := by
  match l with
  | [] => rfl
  | [y] => rfl
  | y :: z :: t =>
    show (!(x = '\n' && y = '\n' && z = '\n') && noTripleNL (y :: z :: t)) = true
    rw [h1, Bool.and_true]
    rcases h2 with h2 | h2
    · simp [h2]
    · by_cases hy : y = '\n'
      · by_cases hz : z = '\n'
        · subst hy; subst hz; simp [startsTwoNL, startsNL] at h2
        · simp [hz]
      · simp [hy]

lemma noTriple_tail {x : Char} {l : List Char} (h : noTripleNL (x :: l) = true) :
    noTripleNL l = true := by
  match l with
  | [] => rfl
  | [y] => rfl
  | y :: z :: t =>
    have h' : (!(x = '\n' && y = '\n' && z = '\n') && noTripleNL (y :: z :: t)) = true := h
    rw [Bool.and_eq_true] at h'
    exact h'.2

lemma noTriple_twoNL {l : List Char} (h : noTripleNL ('\n' :: l) = true) :
    startsTwoNL l = false := by
  match l with
  | [] => rfl
  | [y] => simp [startsTwoNL, startsNL]
  | y :: z :: t =>
    have h' : (!('\n' = '\n' && y = '\n' && z = '\n') && noTripleNL (y :: z :: t)) = true := h
    rw [Bool.and_eq_true] at h'
    have h2 := h'.1
    simp at h2
    simp [startsTwoNL, startsNL]
    tauto

lemma collapseAux_inv :
    ∀ (s : List Char) (n : Nat),
      noTripleNL (collapseAux n s) = true ∧
      (1 ≤ n → startsTwoNL (collapseAux n s) = false) ∧
      (2 ≤ n → startsNL (collapseAux n s) = false) := by
  intro s
  induction s with
  | nil => intro n; exact ⟨rfl, fun _ => rfl, fun _ => rfl⟩
  | cons c rest ih =>
    intro n
    by_cases hc : c = '\n'
    · subst hc
      by_cases hn : 2 ≤ n
      · have he : collapseAux n ('\n' :: rest) = collapseAux (n + 1) rest := by
          simp [collapseAux, hn]
        obtain ⟨i1, i2, i3⟩ := ih (n + 1)
        exact ⟨he ▸ i1, fun _ => he ▸ i2 (by omega), fun _ => he ▸ i3 (by omega)⟩
      · have he : collapseAux n ('\n' :: rest) = '\n' :: collapseAux (n + 1) rest := by
          simp [collapseAux, hn]
        obtain ⟨i1, i2, i3⟩ := ih (n + 1)
        have hst : startsTwoNL (collapseAux (n + 1) rest) = false := i2 (by omega)
        refine ⟨?_, ?_, ?_⟩
        · rw [he]; exact noTriple_cons i1 (Or.inr hst)
        · intro hn1
          have hn1' : n = 1 := by omega
          subst hn1'
          have h3 := i3 (by omega)
          rw [he]
          simp [startsTwoNL, h3]
        · intro hn2; omega
    · have he : collapseAux n (c :: rest) = c :: collapseAux 0 rest := by
        simp [collapseAux, hc]
      obtain ⟨i1, _, _⟩ := ih 0
      refine ⟨?_, ?_, ?_⟩
      · rw [he]; exact noTriple_cons i1 (Or.inl hc)
      · intro _; rw [he]; simp [startsTwoNL, hc]
      · intro _; rw [he]; simp [startsNL, hc]

lemma collapseAux_id :
    ∀ (s : List Char) (n : Nat),
      noTripleNL s = true →
      (2 ≤ n → startsNL s = false) →
      (n = 1 → startsTwoNL s = false) →
      collapseAux n s = s := by
  intro s
  induction s with
  | nil => intro n _ _ _; rfl
  | cons c rest ih =>
    intro n h1 h2 h3
    by_cases hc : c = '\n'
    · subst hc
      by_cases hn : 2 ≤ n
      · exact absurd (h2 hn) (by simp [startsNL])
      · have he : collapseAux n ('\n' :: rest) = '\n' :: collapseAux (n + 1) rest := by
          simp [collapseAux, hn]
        rw [he]
        congr 1
        refine ih (n + 1) (noTriple_tail h1) ?_ ?_
        · intro hn2
          have hn1 : n = 1 := by omega
          have := h3 hn1
          simpa [startsTwoNL] using this
        · intro hn1
          have hn0 : n = 0 := by omega
          exact noTriple_twoNL h1
    · have he : collapseAux n (c :: rest) = c :: collapseAux 0 rest := by
        simp [collapseAux, hc]
      rw [he]
      congr 1
      exact ih 0 (noTriple_tail h1) (fun h => absurd h (by omega)) (fun h => absurd h (by omega))

/- ===== claims about the blank-run collapse and pipeline idempotence ===== -/

/-- C7 counterexample: an interior maximal run of exactly 2 consecutive
blank lines — which the claim says is left unchanged — is collapsed to a
single blank line. -/
theorem blank_collapse_two_blank_lines_cx :
    splitNL "a\n\n\nb".toList = [['a'], [], [], ['b']] ∧
    collapseNewlines "a\n\n\nb".toList = "a\n\nb".toList ∧
    splitNL (collapseNewlines "a\n\n\nb".toList) = [['a'], [], ['b']] := by
  decide

/-- C7 amended: the blank-run collapse replaces every maximal run of 3 or
more consecutive newline characters by exactly two newlines — collapsing
every interior maximal run of 2 or more consecutive blank lines to exactly
one blank line — and changes nothing else: its output never contains three
consecutive newline characters, and any document already free of triple
newlines is returned unchanged. -/
theorem blank_collapse_bounds_newline_runs (s : List Char) :
    noTripleNL (collapseNewlines s) = true ∧
    (noTripleNL s = true → collapseNewlines s = s) := by
  refine ⟨(collapseAux_inv s 0).1, fun h => ?_⟩
  exact collapseAux_id s 0 h (fun h2 => absurd h2 (by omega)) (fun h1 => absurd h1 (by omega))

/-- Witness for C7 amended: a single interior blank line is preserved and
the output carries no triple newline. -/
theorem blank_collapse_bounds_newline_runs_witness :
    noTripleNL (collapseNewlines "a\n\nb".toList) = true ∧
    collapseNewlines "a\n\nb".toList = "a\n\nb".toList :=
  ⟨(blank_collapse_bounds_newline_runs "a\n\nb".toList).1,
    (blank_collapse_bounds_newline_runs "a\n\nb".toList).2 (by decide)⟩

/-- C8 counterexample: the full pipeline is not idempotent.  On this
document the first pass truncates at the entry block's closing brace,
removing the later text containing the function keyword that protected an
Example line from the verbose-example rule, so only the second pass removes
that line. -/
theorem pipeline_not_idempotent_cx :
    aggressive_simplify
        (aggressive_simplify "func main() \x7b\nx Example y \x7d func z".toList) ≠
      aggressive_simplify "func main() \x7b\nx Example y \x7d func z".toList := by
  decide

/-- C8 amended: applying the full pipeline twice does not in general equal
applying it once; the blank-run collapse pass on its own is idempotent. -/
theorem pipeline_not_idempotent_collapse_idempotent :
    (∀ s, collapseNewlines (collapseNewlines s) = collapseNewlines s) ∧
    ¬ (∀ s, aggressive_simplify (aggressive_simplify s) = aggressive_simplify s) := by
  constructor
  · intro s
    exact collapseAux_id _ 0 ((collapseAux_inv s 0).1)
      (fun h2 => absurd h2 (by omega)) (fun h1 => absurd h1 (by omega))
  · intro hall
    have h := hall "func main() \x7b\nx Example y \x7d func z".toList
    revert h
    decide

/-- Witness for C8 amended: the collapse applied twice to a document with a
long blank run equals the collapse applied once. -/
theorem pipeline_not_idempotent_collapse_idempotent_witness :
    collapseNewlines (collapseNewlines "a\n\n\n\nb".toList) =
      collapseNewlines "a\n\n\n\nb".toList :=
  pipeline_not_idempotent_collapse_idempotent.1 "a\n\n\n\nb".toList

